import Mathlib

/-!
# Verification of the Action-Plan Extraction, Validation, and Execution Pipeline

A shallow embedding in Lean 4 of the subsystem of `homellmcoder` that turns
model-generated text into executable action plans and executes them:

* `src/jedi_agent/json_repair_service.py` — the structured-text extractor
  (`extract_and_repair_json`, `repair_and_parse_json`,
  `natural_language_to_json`, `wrap_code_as_action`);
* `src/services/file_operation_service.py` — `FileOperationService.execute_actions`;
* `src/ui/chat_widget.py` — the per-role action filters in `_on_worker_finished`;
* `src/jedi_agent/jedi_main.py` — the runtime execution loop with error
  recovery (retry budget and identical-plan guard).

Python dicts parsed from JSON are modelled by `JsonVal` (objects as ordered
association lists, matching CPython's insertion-ordered dicts; numbers as
integers — floats are outside the scope of every claim).  Exceptions are
modelled with `Except`; the filesystem as an explicit state of directories
and files keyed by normalized absolute paths; spawned shell commands through
an oracle giving each command's exit code and captured output.
-/

namespace HomeLLMCoder

/-- A JSON value as produced by Python's `json.loads`: objects keep field
order and are association lists (CPython dicts are insertion ordered).
Numbers are modelled as integers; no claim involves floats. -/
inductive JsonVal where
  | null : JsonVal
  | bool : Bool → JsonVal
  | num : Int → JsonVal
  | str : String → JsonVal
  | arr : List JsonVal → JsonVal
  | obj : List (String × JsonVal) → JsonVal

mutual

/-- Structural equality test on `JsonVal`.  Written as a mutual recursion
through the two nested list positions, for which no deriving handler
applies. -/
def JsonVal.beq (u v : JsonVal) : Bool :=
  match u, v with
  | .null, .null => true
  | .bool p, .bool q => p == q
  | .num p, .num q => p == q
  | .str p, .str q => p == q
  | .arr p, .arr q => JsonVal.beqList p q
  | .obj p, .obj q => JsonVal.beqFields p q
  | _, _ => false

/-- Positionwise equality test on lists of values. -/
def JsonVal.beqList (us vs : List JsonVal) : Bool :=
  match us, vs with
  | [], [] => true
  | u :: us, v :: vs => JsonVal.beq u v && JsonVal.beqList us vs
  | _, _ => false

/-- Positionwise equality test on object fields (name and value). -/
def JsonVal.beqFields (us vs : List (String × JsonVal)) : Bool :=
  match us, vs with
  | [], [] => true
  | u :: us, v :: vs =>
      u.1 == v.1 && JsonVal.beq u.2 v.2 && JsonVal.beqFields us vs
  | _, _ => false

end

/-! ## A model of Python `json.loads`

The scanner of CPython's `json` module, restricted to what the claims
exercise: objects, arrays, strings (with the short backslash escapes;
`\uXXXX` is not modelled), integers, `true`/`false`/`null`.  Strict mode is
modelled: raw control characters inside string literals are a parse error.
Floats are not modelled (a number followed by `.`/`e` fails to parse). -/

/-- JSON whitespace (`json.decoder` skips space, tab, newline, return). -/
def isJsonWs (c : Char) : Bool :=
  c = ' ' || c = '\t' || c = '\n' || c = '\r'

/-- Drop leading JSON whitespace. -/
def skipWs : List Char → List Char
  | [] => []
  | c :: cs => if isJsonWs c then skipWs cs else c :: cs

/-- Parse the body of a string literal, the opening quote already consumed.
Returns the decoded characters and the remaining input. -/
def parseStringBody : List Char → Option (List Char × List Char)
  | [] => none
  | c :: cs =>
    if c = '"' then some ([], cs)
    else if c = '\\' then
      match cs with
      | [] => none
      | e :: cs' =>
        let dec : Option Char :=
          if e = '"' then some '"'
          else if e = '\\' then some '\\'
          else if e = '/' then some '/'
          else if e = 'n' then some '\n'
          else if e = 't' then some '\t'
          else if e = 'r' then some '\r'
          else if e = 'b' then some (Char.ofNat 8)
          else if e = 'f' then some (Char.ofNat 12)
          else none
        match dec with
        | none => none
        | some d =>
          match parseStringBody cs' with
          | none => none
          | some (out, rest) => some (d :: out, rest)
    else if c.toNat < 0x20 then none
    else
      match parseStringBody cs with
      | none => none
      | some (out, rest) => some (c :: out, rest)

/-- Take a maximal run of decimal digits. -/
def takeDigits : List Char → List Char × List Char
  | [] => ([], [])
  | c :: cs =>
    if c.isDigit then
      let (ds, rest) := takeDigits cs
      (c :: ds, rest)
    else ([], c :: cs)

/-- Numeric value of a digit run. -/
def digitsToNat (ds : List Char) : Nat :=
  ds.foldl (fun n c => 10 * n + (c.toNat - 48)) 0

/-- Parse a JSON integer (floats are outside the model: a fraction or
exponent suffix makes the parse fail). -/
def parseNumber (cs : List Char) : Option (Int × List Char) :=
  let (neg, cs1) : Bool × List Char :=
    match cs with
    | '-' :: t => (true, t)
    | _ => (false, cs)
  let (ds, rest) := takeDigits cs1
  if ds = [] then none
  else if 1 < ds.length ∧ ds.head? = some '0' then none
  else
    match rest with
    | '.' :: _ => none
    | 'e' :: _ => none
    | 'E' :: _ => none
    | _ => some ((if neg then -(digitsToNat ds : Int) else (digitsToNat ds : Int)), rest)

mutual

/-- Parse one JSON value, leading whitespace allowed.  `fuel` bounds the
recursion; `jsonLoads` supplies enough for any input it is given. -/
def parseVal : Nat → List Char → Option (JsonVal × List Char)
  | 0, _ => none
  | fuel + 1, cs =>
    match skipWs cs with
    | [] => none
    | c :: cs' =>
      if c = '{' then
        match skipWs cs' with
        | '}' :: rest => some (.obj [], rest)
        | cs'' =>
          match parseMembers fuel cs'' with
          | some (kvs, rest) => some (.obj kvs, rest)
          | none => none
      else if c = '[' then
        match skipWs cs' with
        | ']' :: rest => some (.arr [], rest)
        | cs'' =>
          match parseElems fuel cs'' with
          | some (xs, rest) => some (.arr xs, rest)
          | none => none
      else if c = '"' then
        match parseStringBody cs' with
        | some (out, rest) => some (.str (String.mk out), rest)
        | none => none
      else if c = 't' then
        match cs' with
        | 'r' :: 'u' :: 'e' :: rest => some (.bool true, rest)
        | _ => none
      else if c = 'f' then
        match cs' with
        | 'a' :: 'l' :: 's' :: 'e' :: rest => some (.bool false, rest)
        | _ => none
      else if c = 'n' then
        match cs' with
        | 'u' :: 'l' :: 'l' :: rest => some (.null, rest)
        | _ => none
      else
        match parseNumber (c :: cs') with
        | some (n, rest) => some (.num n, rest)
        | none => none

/-- Parse the members of an object, positioned at the first key (the `{`
already consumed, the object known to be non-empty). -/
def parseMembers : Nat → List Char → Option (List (String × JsonVal) × List Char)
  | 0, _ => none
  | fuel + 1, cs =>
    match skipWs cs with
    | '"' :: cs1 =>
      match parseStringBody cs1 with
      | some (k, cs2) =>
        match skipWs cs2 with
        | ':' :: cs3 =>
          match parseVal fuel cs3 with
          | some (v, cs4) =>
            match skipWs cs4 with
            | ',' :: cs5 =>
              match parseMembers fuel cs5 with
              | some (kvs, rest) => some ((String.mk k, v) :: kvs, rest)
              | none => none
            | '}' :: cs5 => some ([(String.mk k, v)], cs5)
            | _ => none
          | none => none
        | _ => none
      | none => none
    | _ => none

/-- Parse the elements of an array, positioned at the first element. -/
def parseElems : Nat → List Char → Option (List JsonVal × List Char)
  | 0, _ => none
  | fuel + 1, cs =>
    match parseVal fuel cs with
    | some (v, cs1) =>
      match skipWs cs1 with
      | ',' :: cs2 =>
        match parseElems fuel cs2 with
        | some (xs, rest) => some (v :: xs, rest)
        | none => none
      | ']' :: cs2 => some ([v], cs2)
      | _ => none
    | none => none

end

/-- Model of `json.loads`: parse one value and require only whitespace to
follow.  The fuel `2 * length + 2` dominates the recursion depth of any
input the parser can accept. -/
def jsonLoads (s : String) : Option JsonVal :=
  match parseVal (2 * s.length + 2) s.data with
  | some (v, rest) => if skipWs rest = [] then some v else none
  | none => none

/-! ## A model of `json.dumps` for plan-shaped values

The claims about serialized plans (C7) concern objects whose `"actions"`
key holds an array of flat objects with string-valued fields — exactly the
action vocabulary.  The printer mirrors `json.dumps` with compact
separators on that shape. -/

/-- The escapes `json.dumps` emits for characters the claims use. -/
def escapeChar (c : Char) : List Char :=
  if c = '"' then ['\\', '"']
  else if c = '\\' then ['\\', '\\']
  else if c = '\n' then ['\\', 'n']
  else if c = '\t' then ['\\', 't']
  else if c = '\r' then ['\\', 'r']
  else [c]

/-- Print a string literal with quotes and escapes. -/
def printString (s : String) : List Char :=
  '"' :: (s.data.map escapeChar).flatten ++ ['"']

/-- A character our printer/parser pair round-trips: printable ASCII, or
one of the escaped whitespace characters. -/
def strOkChar (c : Char) : Bool :=
  (decide (0x20 ≤ c.toNat) && decide (c.toNat ≤ 0x7e)) || c = '\n' || c = '\t' || c = '\r'

/-- A string all of whose characters round-trip. -/
def strOk (s : String) : Bool := s.data.all strOkChar

/-- Print the fields of a flat string-valued object, comma separated. -/
def printFields : List (String × String) → List Char
  | [] => []
  | [(k, v)] => printString k ++ ':' :: printString v
  | (k, v) :: rest => printString k ++ ':' :: printString v ++ ',' :: printFields rest

/-- Print one action object. -/
def printActionObj (kvs : List (String × String)) : List Char :=
  '{' :: printFields kvs ++ ['}']

/-- Print the comma-separated actions of a plan. -/
def printActionsArr : List (List (String × String)) → List Char
  | [] => []
  | [a] => printActionObj a
  | a :: rest => printActionObj a ++ ',' :: printActionsArr rest

/-- Print a whole plan `{"actions":[...]}` (compact separators). -/
def printPlan (al : List (List (String × String))) : List Char :=
  '{' :: printString "actions" ++ ':' :: '[' :: printActionsArr al ++ [']', '}']

/-- `json.dumps` of a plan, as a string. -/
def dumpsPlan (al : List (List (String × String))) : String :=
  String.mk (printPlan al)

/-- The object fields a plan-shaped action object denotes. -/
def fieldsJson (kvs : List (String × String)) : List (String × JsonVal) :=
  kvs.map (fun kv => (kv.1, JsonVal.str kv.2))

/-- The `JsonVal` a plan-shaped action object denotes. -/
def actionJson (kvs : List (String × String)) : JsonVal :=
  .obj (fieldsJson kvs)

/-- The `JsonVal` a whole plan denotes. -/
def planJson (al : List (List (String × String))) : JsonVal :=
  .obj [("actions", .arr (al.map actionJson))]

/-- Parser fuel sufficient for the elements of a printed plan's `actions`
array (each element costs its field count plus constant overhead). -/
def needElems : List (List (String × String)) → Nat
  | [] => 1
  | a :: rest => a.length + 4 + needElems rest

/-- All keys and values of an action round-trip through the printer. -/
def fieldsOk (kvs : List (String × String)) : Bool :=
  kvs.all (fun kv => strOk kv.1 && strOk kv.2)

/-- All actions of a plan round-trip through the printer. -/
def planOk (al : List (List (String × String))) : Bool := al.all fieldsOk

/-- A plan serialized inside a tagged triple-backtick fenced block. -/
def fencedInput (al : List (List (String × String))) : String :=
  "```json\n" ++ dumpsPlan al ++ "\n```"

/-! ## Text scanning primitives

Models of the `re` searches `json_repair_service.py` performs, written as
recursive scanners over character lists.  Each mirrors the pattern the
source compiles; backtracking subtleties that no claim input exercises are
noted where they are simplified. -/

/-- Split at the first occurrence of `needle`: returns the text before it
and the text after it. -/
def splitOnSub (needle : List Char) : List Char → Option (List Char × List Char)
  | [] => if needle.isPrefixOf ([] : List Char) then some ([], []) else none
  | c :: cs =>
    if needle.isPrefixOf (c :: cs) then some ([], (c :: cs).drop needle.length)
    else
      match splitOnSub needle cs with
      | some (pre, post) => some (c :: pre, post)
      | none => none

/-- Python `\s` (the claims never use `\x0b`/`\x0c`, included anyway). -/
def isWsChar (c : Char) : Bool :=
  c = ' ' || c = '\t' || c = '\n' || c = '\r' || c = '\x0b' || c = '\x0c'

/-- Drop a maximal run of `\s` characters. -/
def skipWsAll : List Char → List Char
  | [] => []
  | c :: cs => if isWsChar c then skipWsAll cs else c :: cs

/-- Python `str.strip()`. -/
def pyStrip (cs : List Char) : List Char :=
  (skipWsAll ((skipWsAll cs).reverse)).reverse

/-- `str.strip()` on `String`. -/
def stripS (s : String) : String := String.mk (pyStrip s.data)

/-- Drop horizontal whitespace (models `\s*` immediately before a required
newline in the first fence pattern). -/
def skipSpaceTab : List Char → List Char
  | [] => []
  | c :: cs => if c = ' ' || c = '\t' || c = '\r' then skipSpaceTab cs else c :: cs

/-- The language tags of `r'```(?:json|markdown|python|text)?...'`,
in the pattern's alternation order. -/
def fenceTags : List (List Char) :=
  ["json".data, "markdown".data, "python".data, "text".data]

/-- Drop a recognized language tag if one follows the opening fence. -/
def dropTag (cs : List Char) : List Char :=
  match fenceTags.find? (fun t => t.isPrefixOf cs) with
  | some t => cs.drop t.length
  | none => cs

/-- Model of `re.search(r'```(?:json|markdown|python|text)?\s*\n(.*?)\n```', …, DOTALL)`:
first fence, optional tag, whitespace then a newline, lazy capture to the
next `\n```' . -/
def fencePattern1 (cs : List Char) : Option (List Char) :=
  match splitOnSub "```".data cs with
  | none => none
  | some (_, rest) =>
    match skipSpaceTab (dropTag rest) with
    | '\n' :: body =>
      match splitOnSub "\n```".data body with
      | some (content, _) => some content
      | none => none
    | _ => none

/-- Model of `r'```(?:json|markdown|python|text)?(.*?)```'`. -/
def fencePattern2 (cs : List Char) : Option (List Char) :=
  match splitOnSub "```".data cs with
  | none => none
  | some (_, rest) =>
    match splitOnSub "```".data (dropTag rest) with
    | some (content, _) => some content
    | none => none

/-- Model of `` r'`{3,}(.*?)`{3,}' ``. -/
def fencePattern3 (cs : List Char) : Option (List Char) :=
  match splitOnSub "```".data cs with
  | none => none
  | some (_, rest) =>
    match splitOnSub "```".data rest with
    | some (content, _) => some content
    | none => none

/-- Scan forward for the close bracket balancing an already-seen open
bracket, accumulating the span (reversed). -/
def scanBalanced (openC closeC : Char) : Nat → List Char → List Char → Option (List Char)
  | depth, acc, [] => if depth = 0 then some acc.reverse else none
  | depth, acc, c :: cs =>
    if c = closeC then
      if depth = 1 then some ((c :: acc).reverse)
      else scanBalanced openC closeC (depth - 1) (c :: acc) cs
    else if c = openC then scanBalanced openC closeC (depth + 1) (c :: acc) cs
    else scanBalanced openC closeC depth (c :: acc) cs

/-- Model of the balanced-span regexes
`r'\{(?:[^{}]|\{(?:[^{}]|\{[^{}]*\})*\})*\}'` (and its `[`/`]` twin): the
first balanced bracket span.  The source's regex bounds nesting at depth
three; this scanner balances any depth — no claim input nests deeper. -/
def findSpan (openC closeC : Char) : List Char → Option (List Char)
  | [] => none
  | c :: cs =>
    if c = openC then
      match scanBalanced openC closeC 1 [c] cs with
      | some span => some span
      | none => findSpan openC closeC cs
    else findSpan openC closeC cs

/-- Case-insensitive literal match; returns the rest on success. -/
def matchCI : List Char → List Char → Option (List Char)
  | [], cs => some cs
  | _, [] => none
  | p :: ps, c :: cs => if c.toLower = p.toLower then matchCI ps cs else none

/-- `(?:Step|Phase)` case-insensitively. -/
def matchStepWord (cs : List Char) : Option (List Char) :=
  match matchCI "step".data cs with
  | some r => some r
  | none => matchCI "phase".data cs

/-- The head of the step pattern `(?:Step|Phase)\s*\d+:?\s*` (with
`requireColon = true`, the lookahead form `(?:Step|Phase)\s*\d+:`). -/
def matchStepHead (requireColon : Bool) (cs : List Char) : Option (List Char) :=
  match matchStepWord cs with
  | none => none
  | some r1 =>
    let (ds, r3) := takeDigits (skipWsAll r1)
    if ds = [] then none
    else
      match r3 with
      | ':' :: r4 => some (if requireColon then r4 else skipWsAll r4)
      | _ => if requireColon then none else some (skipWsAll r3)

/-- Lazy capture `(.*?)` up to the lookahead `(?=(?:Step|Phase)\s*\d+:|$)`:
returns the captured text and the remainder where the lookahead fired. -/
def captureUntilStep : List Char → List Char × List Char
  | [] => ([], [])
  | c :: cs =>
    if (matchStepHead true (c :: cs)).isSome then ([], c :: cs)
    else
      let (cap, rem) := captureUntilStep cs
      (c :: cap, rem)

/-- `re.findall` of the step pattern: scan for non-overlapping matches left
to right; each match resumes where its capture's lookahead fired.  The fuel
(`length + 1` at the entry point) dominates the number of scan steps. -/
def stepFindallAux : Nat → List Char → List (List Char)
  | 0, _ => []
  | _ + 1, [] => []
  | fuel + 1, c :: cs =>
    match matchStepHead false (c :: cs) with
    | some rest =>
      let (cap, rem) := captureUntilStep rest
      cap :: stepFindallAux fuel rem
    | none => stepFindallAux fuel cs

/-- The captured groups of the step pattern over a string. -/
def stepFindall (s : String) : List (List Char) :=
  stepFindallAux (s.length + 1) s.data

/-- A quote character of the file-operation pattern `[\'"\x60]`. -/
def isQuoteChar (c : Char) : Bool :=
  c = '\'' || c = '"' || c = '`'

/-- The head `(?:create|edit)\s+(?:file|directory)` case-insensitively. -/
def matchFileHead (cs : List Char) : Option (List Char) :=
  let afterWord : Option (List Char) :=
    match matchCI "create".data cs with
    | some r => some r
    | none => matchCI "edit".data cs
  match afterWord with
  | none => none
  | some r1 =>
    match r1 with
    | c :: rest =>
      if isWsChar c then
        let r2 := skipWsAll rest
        match matchCI "file".data r2 with
        | some r3 => some r3
        | none => matchCI "directory".data r2
      else none
    | [] => none

/-- `.*?` lazily to the first quote character; rest follows it. -/
def findQuote : List Char → Option (List Char)
  | [] => none
  | c :: cs => if isQuoteChar c then some cs else findQuote cs

/-- Capture `(.*?)` up to the next quote character. -/
def captureToQuote : List Char → Option (List Char × List Char)
  | [] => none
  | c :: cs =>
    if isQuoteChar c then some ([], cs)
    else
      match captureToQuote cs with
      | some (cap, rest) => some (c :: cap, rest)
      | none => none

/-- `re.findall` of the file-operation pattern
`r'(?:create|edit)\s+(?:file|directory).*?[\'"\x60](.*?)[\'"\x60]'`. -/
def fileFindallAux : Nat → List Char → List (List Char)
  | 0, _ => []
  | _ + 1, [] => []
  | fuel + 1, c :: cs =>
    match matchFileHead (c :: cs) with
    | some r1 =>
      match findQuote r1 with
      | some r2 =>
        match captureToQuote r2 with
        | some (cap, rem) => cap :: fileFindallAux fuel rem
        | none => fileFindallAux fuel cs
      | none => fileFindallAux fuel cs
    | none => fileFindallAux fuel cs

/-- The captured groups of the file-operation pattern over a string. -/
def fileFindall (s : String) : List (List Char) :=
  fileFindallAux (s.length + 1) s.data

/-- Walk a whitespace run after an opening newline, remembering the rest
after the most recent newline (the greedy `\s*` backtracks to end the
separator `\n\s*\n` on a newline). -/
def paraSepAux : List Char → Option (List Char) → Option (List Char)
  | [], best => best
  | c :: cs, best =>
    if c = '\n' then paraSepAux cs (some cs)
    else if isWsChar c then paraSepAux cs best
    else best

/-- Match the paragraph separator `r'\n\s*\n'` at the head: the remainder
after the separator, the separator ending at the last newline of the
whitespace run. -/
def matchParaSep : List Char → Option (List Char)
  | '\n' :: rest => paraSepAux rest none
  | _ => none

/-- `re.split(r'\n\s*\n', text)`: pieces between separators. -/
def paraSplitAux : Nat → List Char → List Char → List (List Char)
  | 0, acc, _ => [acc.reverse]
  | _ + 1, acc, [] => [acc.reverse]
  | fuel + 1, acc, c :: cs =>
    match matchParaSep (c :: cs) with
    | some rest => acc.reverse :: paraSplitAux fuel [] rest
    | none => paraSplitAux fuel (c :: acc) cs

/-- The nonempty stripped paragraphs of the input, as the source computes
`[p.strip() for p in re.split(r'\n\s*\n', text) if p.strip()]`. -/
def paragraphs (s : String) : List (List Char) :=
  ((paraSplitAux (s.length + 1) [] s.data).map pyStrip).filter (· ≠ [])

/-- Join pieces with a separator (Python `sep.join`). -/
def joinSep (sep : List Char) : List (List Char) → List Char
  | [] => []
  | [p] => p
  | p :: rest => p ++ sep ++ joinSep sep rest

/-! ## `json_repair_service.py` (jedi_agent) -/

/-- Python exceptions that can cross the modelled functions' boundaries. -/
inductive PyErr where
  | typeError
  | valueError
  | unboundLocal
  | calledProcess
deriving DecidableEq

/-- Python's `key in value` on values `json.loads` produces: key lookup for
dicts, membership for lists, substring test for strings, and a `TypeError`
for the non-iterable scalars. -/
def pyContains (key : String) : JsonVal → Except PyErr Bool
  | .obj kvs => .ok (kvs.any (fun kv => kv.1 = key))
  | .arr xs => .ok (xs.any (fun x => JsonVal.beq x (.str key)))
  | .str s => .ok (splitOnSub key.data s.data).isSome
  | _ => .error .typeError

/-- The placeholder content `natural_language_to_json` writes for
synthesized file actions. -/
def placeholderContent : String :=
  "# Auto-generated from natural language\n# Please edit this file with actual content"

/-- The content of the generic-plan fallback:
`"# Generated Plan\n\n" + "\n\n".join(paragraphs)`. -/
def genPlanContent (s : String) : String :=
  String.mk ("# Generated Plan\n\n".data ++ joinSep "\n\n".data (paragraphs s))

/-- `natural_language_to_json`.  The source returns `json.dumps` of this
value and every caller immediately `json.loads` it back, which is the
identity on these values; the model returns the value. -/
def naturalLanguageToJson (s : String) : JsonVal :=
  match stepFindall s with
  | st :: sts =>
      .obj [("refined_plan", .obj [("steps",
        .arr ((st :: sts).map (fun step => JsonVal.str (String.mk (pyStrip step)))))])]
  | [] =>
    match fileFindall s with
    | f :: fs =>
        .obj [("actions", .arr ((f :: fs).map (fun file =>
          .obj [("action", .str "create_file"),
                ("path", .str (String.mk (pyStrip file))),
                ("content", .str placeholderContent)])))]
    | [] =>
      match paragraphs s with
      | _ :: _ =>
          .obj [("actions", .arr [
            .obj [("action", .str "create_file"),
                  ("path", .str "plan.md"),
                  ("content", .str (genPlanContent s))]])]
      | [] => .obj [("actions", .arr [])]

/-- `wrap_code_as_action` on a string argument (the list branch is never
reached by the claims).  As with `natural_language_to_json`, the
`json.dumps`/`json.loads` pair around it is elided. -/
def wrapCodeAsAction (raw : String) (filenameHint : String) : JsonVal :=
  .obj [("actions", .arr [
    .obj [("action", .str "create_file"),
          ("path", .str filenameHint),
          ("content", .str raw)]])]

/-- `repair_and_parse_json`, parameterized by the external
`json_repair.repair_json` dependency (`repairO`); an oracle that fails to
help is one whose output does not parse.  The source's
`wrap_code_as_action` and error-dict fallbacks are unreachable because the
natural-language fallback is total and always yields valid JSON text. -/
def repairAndParseJson (repairO : String → String) (s : String) : JsonVal :=
  match jsonLoads s with
  | some v => v
  | none =>
    match jsonLoads (repairO s) with
    | some v => v
    | none => naturalLanguageToJson s

/-- One cascade stage of `extract_and_repair_json`: if the pattern matched,
parse the stripped capture; return it unless it carries an `"error"` key
(in which case fall through), propagating the `TypeError` the membership
test `'error' not in result` raises on non-container results. -/
def stageOr (repairO : String → String) (res : Option (List Char))
    (next : Except PyErr JsonVal) : Except PyErr JsonVal :=
  match res with
  | none => next
  | some content =>
    let r := repairAndParseJson repairO (String.mk (pyStrip content))
    match pyContains "error" r with
    | .error e => .error e
    | .ok true => next
    | .ok false => .ok r

/-- `extract_and_repair_json` (jedi_agent version): direct parse of the
stripped input, then the three code-block patterns, the balanced-brace
span, the balanced-bracket span, and finally the natural-language
conversion (whose `wrap_code_as_action` fallback and the closing
`repair_and_parse_json` call are unreachable, the conversion being total). -/
def extractAndRepairJson (repairO : String → String) (raw : String) :
    Except PyErr JsonVal :=
  match jsonLoads (stripS raw) with
  | some v => .ok v
  | none =>
    stageOr repairO (fencePattern1 raw.data)
      (stageOr repairO (fencePattern2 raw.data)
        (stageOr repairO (fencePattern3 raw.data)
          (stageOr repairO (findSpan '{' '}' raw.data)
            (stageOr repairO (findSpan '[' ']' raw.data)
              (.ok (naturalLanguageToJson raw))))))

/-- Association-list lookup by key. -/
def lookupKey (k : String) : List (String × JsonVal) → Option JsonVal
  | [] => none
  | (k', v) :: rest => if k' = k then some v else lookupKey k rest

/-- The `"actions"` list of an extraction result (empty when absent). -/
def jsonActions : JsonVal → List JsonVal
  | .obj kvs =>
    match lookupKey "actions" kvs with
    | some (.arr xs) => xs
    | _ => []
  | _ => []

/-- The identity repair oracle, standing in for `repair_json` on inputs
that never reach it. -/
def repairId : String → String := fun s => s

/-! ## `FileOperationService.execute_actions` (file_operation_service.py)

The executor receives a list of JSON dicts.  A dict is modelled by the
fields the source reads with `.get`; a missing key is `none`.  The
filesystem is a state of directories and files keyed by normalized
absolute paths (component lists); spawned shell commands go through an
oracle mapping `(command_line, cwd)` to exit code and captured output, and
every spawn is recorded in a trace. -/

/-- One plan action as `execute_actions` receives it. -/
structure ActionData where
  action : Option String
  path : Option String
  content : Option String
  command_line : Option String
  working_dir : Option String
deriving DecidableEq

/-- Split a character list at every occurrence of `sep`. -/
def splitChar (sep : Char) : List Char → List (List Char)
  | [] => [[]]
  | c :: cs =>
    let r := splitChar sep cs
    if c = sep then [] :: r
    else
      match r with
      | h :: t => (c :: h) :: t
      | [] => [[c]]

/-- Split a POSIX path string into components (absoluteness, components);
`.`/`..` stay as components until resolution. -/
def pathComps (s : String) : Bool × List String :=
  (s.data.head? = some '/',
    ((splitChar '/' s.data).map String.mk).filter (· ≠ ""))

/-- Resolve `.`/`..` as the OS resolves them when opening a path
(`..` at the filesystem root stays at the root, as on POSIX). -/
def normComps (cs : List String) : List String :=
  cs.foldl (fun acc c =>
    if c = "." then acc
    else if c = ".." then acc.dropLast
    else acc ++ [c]) []

/-- `os.path.join(root, p)` before resolution: an absolute `p` replaces the
root, otherwise the components concatenate. -/
def joinRaw (root : List String) (p : String) : List String :=
  let (abs, comps) := pathComps p
  if abs then comps else root ++ comps

/-- The normalized target the OS resolves `os.path.join(root, p)` to. -/
def resolveJoin (root : List String) (p : String) : List String :=
  normComps (joinRaw root p)

/-- The resolved path escapes the project root when the root's components
are not a prefix of it. -/
def escapesRoot (root target : List String) : Bool :=
  ¬ root.isPrefixOf target

/-- The filesystem: existing directories, and files with contents, both
keyed by normalized absolute component paths. -/
structure FSState where
  dirs : List (List String)
  files : List (List String × String)
deriving DecidableEq

/-- `os.makedirs(..., exist_ok=True)` along an unresolved component chain:
every intermediate exists afterwards (under its normalized identity). -/
def mkdirsRaw (st : FSState) (raw : List String) : FSState :=
  { st with dirs := st.dirs ++ ((List.range (raw.length + 1)).map
      (fun n => normComps (raw.take n))) }

/-- Write (or overwrite) a file. -/
def writeFile (st : FSState) (target : List String) (content : String) : FSState :=
  { st with files := st.files.filter (fun kv => kv.1 ≠ target) ++ [(target, content)] }

/-- `os.remove`. -/
def removeFile (st : FSState) (target : List String) : FSState :=
  { st with files := st.files.filter (fun kv => kv.1 ≠ target) }

/-- `os.path.exists` (file or directory). -/
def pathExists (st : FSState) (target : List String) : Bool :=
  st.files.any (fun kv => kv.1 = target) || st.dirs.contains target

/-- A file with the given content exists. -/
def fileHas (st : FSState) (target : List String) (content : String) : Bool :=
  st.files.contains (target, content)

/-- Exit code and captured output of one spawned command. -/
structure CmdResult where
  exitCode : Int
  out : String
  err : String
deriving DecidableEq

/-- What `execute_actions` returns when it does not raise: `None`, the
3-tuple `(success, stdout, stderr)` of the captured-branch early return on
a failing command without `capture_output`, or the 4-tuple
`(success, stdout, stderr, command)`. -/
inductive ExecRet where
  | noneRet : ExecRet
  | triple : Bool → String → String → ExecRet
  | quad : Bool → Option String → Option String → Option String → ExecRet
deriving DecidableEq

/-- Result of `execute_actions`: the return-or-raise outcome, the
filesystem afterwards (side effects persist past a raise), and the trace
of spawned commands with their working directories. -/
structure ExecOut where
  ret : Except PyErr ExecRet
  fs : FSState
  spawned : List (String × List String)

/-- The action loop of `execute_actions` (source lines 32-174), after the
project-root check.  `cmdO` maps `(command_line, cwd)` to the spawned
process's result; `hasEmitter` selects the streaming branch,
`captureOutput` the `capture_output` flag. -/
def executeActionsAux (cmdO : String → List String → CmdResult)
    (hasEmitter captureOutput : Bool) (root : List String) :
    FSState → List (String × List String) →
    Option String → Option String → Option String →
    List ActionData → ExecOut
  | st, spawned, lastOut, lastErr, lastCmd, [] =>
    if captureOutput && lastCmd.isSome then
      ⟨.ok (.quad true lastOut lastErr lastCmd), st, spawned⟩
    else ⟨.ok .noneRet, st, spawned⟩
  | st, spawned, lastOut, lastErr, lastCmd, ad :: rest =>
    match ad.action with
    | none =>
      -- missing "action" key: logged and skipped
      executeActionsAux cmdO hasEmitter captureOutput root
        st spawned lastOut lastErr lastCmd rest
    | some atype =>
      if atype = "run_command" then
        match ad.command_line with
        | none => ⟨.error .valueError, st, spawned⟩
        | some cl =>
          if cl = "" then ⟨.error .valueError, st, spawned⟩
          else
            -- "Force command_cwd to be project_root, ignoring any cwd
            -- from action_data" (source line 49-50)
            let res := cmdO cl root
            let spawned' := spawned ++ [(cl, root)]
            if hasEmitter then
              if res.exitCode ≠ 0 then ⟨.error .calledProcess, st, spawned'⟩
              else
                executeActionsAux cmdO hasEmitter captureOutput root
                  st spawned' lastOut lastErr lastCmd rest
            else
              if res.exitCode ≠ 0 then
                if captureOutput then
                  ⟨.ok (.quad false (some res.out) (some res.err) (some cl)), st, spawned'⟩
                else
                  -- `except CalledProcessError` then `return success, stdout, stderr`
                  ⟨.ok (.triple false res.out res.err), st, spawned'⟩
              else
                -- success falls through to `return success, stdout, stderr`
                -- with the local `success` never assigned: an
                -- UnboundLocalError, re-raised by the outer handler
                ⟨.error .unboundLocal, st, spawned'⟩
      else
        match ad.path with
        | none =>
          executeActionsAux cmdO hasEmitter captureOutput root
            st spawned lastOut lastErr lastCmd rest
        | some p =>
          if p = "" then
            executeActionsAux cmdO hasEmitter captureOutput root
              st spawned lastOut lastErr lastCmd rest
          else
            let target := resolveJoin root p
            if atype = "create_file" then
              let st' := writeFile (mkdirsRaw st (joinRaw root p).dropLast) target
                (ad.content.getD "")
              executeActionsAux cmdO hasEmitter captureOutput root
                st' spawned lastOut lastErr lastCmd rest
            else if atype = "edit_file" then
              match ad.content with
              | none => ⟨.error .valueError, st, spawned⟩
              | some content =>
                let st' := writeFile (mkdirsRaw st (joinRaw root p).dropLast) target content
                executeActionsAux cmdO hasEmitter captureOutput root
                  st' spawned lastOut lastErr lastCmd rest
            else if atype = "delete_file" then
              let st' := if pathExists st target then removeFile st target else st
              executeActionsAux cmdO hasEmitter captureOutput root
                st' spawned lastOut lastErr lastCmd rest
            else if atype = "create_directory" then
              executeActionsAux cmdO hasEmitter captureOutput root
                (mkdirsRaw st (joinRaw root p)) spawned lastOut lastErr lastCmd rest
            else ⟨.error .valueError, st, spawned⟩

/-- The guard `not project_root or not os.path.isdir(project_root)`
(negated): the root is a non-empty string naming an existing directory. -/
def validRoot (st : FSState) : Option String → Bool
  | none => false
  | some r => if r = "" then false else st.dirs.contains (normComps (pathComps r).2)

/-- The normalized components of the project root. -/
def rootOf : Option String → List String
  | none => []
  | some r => normComps (pathComps r).2

/-- `execute_actions` (source lines 23-174): reject an empty/None or
non-directory project root with `ValueError` before touching any action,
then run the loop. -/
def executeActions (cmdO : String → List String → CmdResult)
    (hasEmitter captureOutput : Bool) (projectRoot : Option String)
    (st : FSState) (actions : List ActionData) : ExecOut :=
  if validRoot st projectRoot then
    executeActionsAux cmdO hasEmitter captureOutput (rootOf projectRoot)
      st [] none none none actions
  else ⟨.error .valueError, st, []⟩

/-! ## Per-role action filters (`chat_widget.py`, `_on_worker_finished`)

The filtering blocks at source lines 262-306, one total function per
role.  Rejected actions are dropped; nothing raises. -/

/-- Manager filter: only `create_file` of `plan.md` survives. -/
def managerFilter (actions : List ActionData) : List ActionData :=
  actions.filter (fun a => a.action = some "create_file" && a.path = some "plan.md")

/-- Planner filter: only `project_plan.md` survives, as `create_file` when
the plan file does not yet exist and as `edit_file` when it does. -/
def plannerFilter (planExists : Bool) (actions : List ActionData) : List ActionData :=
  actions.filter (fun a =>
    a.path = some "project_plan.md" &&
      ((a.action = some "create_file" && !planExists) ||
       (a.action = some "edit_file" && planExists)))

/-- Coder filter: the plan files are forbidden; the kind must be one of
`create_file`, `edit_file`, `run_command`, `create_directory`. -/
def coderFilter (actions : List ActionData) : List ActionData :=
  actions.filter (fun a =>
    !(a.path = some "plan.md" || a.path = some "project_plan.md") &&
      (a.action = some "create_file" || a.action = some "edit_file" ||
       a.action = some "run_command" || a.action = some "create_directory"))

/-! ## The runtime execution loop of `jedi_main.py` (lines 304-373)

The loop walks an action list with index `i`, a `retry_count` that resets
to zero on every successful action, and a `retry_limit` of 5.  On a failed
action the fixer is asked for a new action list; if the returned list
equals the current one the loop breaks at once; otherwise execution
restarts at index 0 with `retry_count + 1`.  Whether the `t`-th execution
attempt succeeds is an oracle `execO`; the plan the `k`-th fixer call
returns is an oracle `fixO`.  Fuel bounds the iteration count — the source
loop itself need not terminate. -/

/-- The loop's mutable state. -/
structure JediState where
  actions : List ActionData
  i : Nat
  retry : Nat
  execCount : Nat
  fixCount : Nat
deriving DecidableEq

/-- `retry_limit = 5` (source line 307). -/
def retryLimit : Nat := 5

/-- How the loop ended: the `while` condition went false (`i` past the end
or `retry_count` at the limit), the identical-plan `break` fired, or the
fuel ran out (the source loop can spin forever). -/
inductive JediResult where
  | exited : JediState → JediResult
  | loopHalt : JediState → JediResult
  | fuelOut : JediState → JediResult
deriving DecidableEq

/-- The `while i < len(actions_list) and retry_count < retry_limit` loop. -/
def jediLoop (execO : Nat → Bool) (fixO : Nat → List ActionData) :
    Nat → JediState → JediResult
  | 0, s => .fuelOut s
  | fuel + 1, s =>
    if s.i < s.actions.length ∧ s.retry < retryLimit then
      if execO s.execCount then
        jediLoop execO fixO fuel
          { s with i := s.i + 1, retry := 0, execCount := s.execCount + 1 }
      else
        let newActs := fixO s.fixCount
        if newActs = s.actions then
          .loopHalt { s with execCount := s.execCount + 1, fixCount := s.fixCount + 1 }
        else
          jediLoop execO fixO fuel
            { actions := newActs, i := 0, retry := s.retry + 1,
              execCount := s.execCount + 1, fixCount := s.fixCount + 1 }
    else .exited s

/-- The final state a loop result carries. -/
def JediResult.state : JediResult → JediState
  | .exited s => s
  | .loopHalt s => s
  | .fuelOut s => s

/-! ## Concrete scenarios the theorems evaluate -/

/-- A filesystem holding just the project root `/r/proj`. -/
def projFS : FSState := ⟨[[], ["r"], ["r", "proj"]], []⟩

/-- A command oracle: `echo hi` exits 0 with output, everything else
exits 1. -/
def echoCmdO : String → List String → CmdResult := fun cl _ =>
  if cl = "echo hi" then ⟨0, "hi\n", ""⟩ else ⟨1, "", "boom"⟩

/-- A `create_file` action dict. -/
def mkCreateFile (p c : String) : ActionData :=
  ⟨some "create_file", some p, some c, none, none⟩

/-- A `run_command` action dict. -/
def mkRunCommand (cl : String) (wd : Option String) : ActionData :=
  ⟨some "run_command", none, none, some cl, wd⟩

/-- The two-action plan numbered `k` in the jedi-loop scenario;
consecutive plans differ. -/
def planNum (k : Nat) : List ActionData :=
  [⟨some "create_file", some (toString k), some "", none, none⟩,
   ⟨some "create_file", some (toString k ++ "b"), some "", none, none⟩]

/-- Execution oracle for the jedi-loop scenario: in each of the first six
plans the first action succeeds (resetting `retry_count`) and the second
fails; the seventh plan succeeds throughout. -/
def alternatingExec : Nat → Bool := fun t => if t < 12 then t % 2 = 0 else true

/-- Fixer oracle for the jedi-loop scenario: the `j`-th call returns plan
`j + 1`. -/
def nextPlanFix : Nat → List ActionData := fun j => planNum (j + 1)

/-- Start state of the jedi-loop scenario: plan 0, all counters zero. -/
def jediStart : JediState := ⟨planNum 0, 0, 0, 0, 0⟩

/-- A manager-role action the filter keeps. -/
def goodMgrAction : ActionData := ⟨some "create_file", some "plan.md", some "c", none, none⟩

/-- A manager-role action the filter drops. -/
def badMgrAction : ActionData := ⟨some "delete_file", some "x", none, none, none⟩

/-! # Theorems -/

/-- Every command the action loop spawns beyond those already in the trace
runs with the project root as its working directory, whatever the actions'
`working_dir` fields say. -/
theorem executeActionsAux_spawned_cwd (cmdO : String → List String → CmdResult)
    (he co : Bool) (root : List String) :
    ∀ (acts : List ActionData) (st : FSState)
      (spawned : List (String × List String)) (lo le lc : Option String)
      (c : String × List String),
      c ∈ (executeActionsAux cmdO he co root st spawned lo le lc acts).spawned →
      c ∈ spawned ∨ c.2 = root := by
  intro acts
  induction acts with
  | nil =>
    intro st spawned lo le lc c h
    simp only [executeActionsAux] at h
    split at h <;> exact .inl h
  | cons ad rest ih =>
    intro st spawned lo le lc c h
    simp only [executeActionsAux] at h
    split at h
    · exact ih _ _ _ _ _ _ h
    · split at h
      · -- run_command with missing command_line
        split at h
        · exact .inl h
        · -- command_line present
          split at h
          · exact .inl h
          · -- spawned' = spawned ++ [(cl, root)] everywhere below
            have collect : ∀ cl : String,
                c ∈ spawned ++ [(cl, root)] → c ∈ spawned ∨ c.2 = root := by
              intro cl hm
              rcases List.mem_append.mp hm with hm | hm
              · exact .inl hm
              · right; rw [List.mem_singleton.mp hm]
            split at h
            · split at h
              · exact collect _ h
              · rcases ih _ _ _ _ _ _ h with hm | hm
                · exact collect _ hm
                · exact .inr hm
            · split at h
              · split at h
                · exact collect _ h
                · exact collect _ h
              · exact collect _ h
      · -- not run_command: a path action
        split at h
        · exact ih _ _ _ _ _ _ h
        · split at h
          · exact ih _ _ _ _ _ _ h
          · split at h
            · exact ih _ _ _ _ _ _ h
            · split at h
              · split at h
                · exact .inl h
                · exact ih _ _ _ _ _ _ h
              · split at h
                · exact ih _ _ _ _ _ _ h
                · split at h
                  · exact ih _ _ _ _ _ _ h
                  · exact .inl h

/-- C10: with an empty/None or non-directory project root,
`execute_actions` raises `ValueError` before attempting any action: the
filesystem is unchanged and no command is spawned. -/
theorem executeActions_invalid_root_raises (cmdO : String → List String → CmdResult)
    (he co : Bool) (rootOpt : Option String) (st : FSState)
    (acts : List ActionData) (h : validRoot st rootOpt = false) :
    executeActions cmdO he co rootOpt st acts = ⟨.error .valueError, st, []⟩ := by
  simp [executeActions, h]

/-- Witness for C10 at a concrete invalid root (`None`) and a non-empty
plan: the error is raised, the state untouched, nothing spawned. -/
theorem executeActions_invalid_root_witness :
    validRoot projFS none = false ∧
    executeActions echoCmdO false false none projFS [mkCreateFile "a.txt" "x"] =
      ⟨.error .valueError, projFS, []⟩ :=
  ⟨rfl, executeActions_invalid_root_raises echoCmdO false false none projFS
    [mkCreateFile "a.txt" "x"] rfl⟩

/-- C1 counterexample: a `create_file` whose path resolves outside the
project root (`../evil.txt` against `/r/proj` resolves to `/r/evil.txt`)
is not rejected — the action succeeds and the file is written outside the
root, contradicting the claimed path confinement. -/
theorem createFile_escape_not_rejected :
    escapesRoot ["r", "proj"] (resolveJoin ["r", "proj"] "../evil.txt") = true ∧
    (executeActions echoCmdO false false (some "/r/proj") projFS
        [mkCreateFile "../evil.txt" "x"]).ret = .ok .noneRet ∧
    fileHas (executeActions echoCmdO false false (some "/r/proj") projFS
        [mkCreateFile "../evil.txt" "x"]).fs ["r", "evil.txt"] "x" = true :=
  ⟨rfl, rfl, rfl⟩

/-- C1 (amended): the executor joins the action path to the project root
and writes at the resolved target with no escape check — a nonempty-path
`create_file` succeeds and writes there whether or not the target stays
under the root. -/
theorem createFile_writes_resolved_path_unchecked
    (cmdO : String → List String → CmdResult) (he co : Bool)
    (r p content : String) (st : FSState)
    (hroot : validRoot st (some r) = true) (hp : p ≠ "") :
    (executeActions cmdO he co (some r) st [mkCreateFile p content]).ret = .ok .noneRet ∧
    fileHas (executeActions cmdO he co (some r) st [mkCreateFile p content]).fs
      (resolveJoin (rootOf (some r)) p) content = true := by
  have hstep : executeActions cmdO he co (some r) st [mkCreateFile p content] =
      executeActionsAux cmdO he co (rootOf (some r)) st [] none none none
        [mkCreateFile p content] := by
    simp [executeActions, hroot]
  rw [hstep]
  simp only [executeActionsAux, mkCreateFile]
  rw [if_neg (by decide : ¬("create_file" = "run_command"))] at *
  simp only [if_neg hp, if_pos rfl]
  constructor <;> simp [fileHas, writeFile]

/-- Witness for the amended C1 at the escaping input: the hypotheses hold
at `/r/proj` and path `../evil.txt`, and the file lands outside the root. -/
theorem createFile_unchecked_witness :
    (executeActions echoCmdO false false (some "/r/proj") projFS
        [mkCreateFile "../evil.txt" "secret"]).ret = .ok .noneRet ∧
    fileHas (executeActions echoCmdO false false (some "/r/proj") projFS
        [mkCreateFile "../evil.txt" "secret"]).fs
      (resolveJoin (rootOf (some "/r/proj")) "../evil.txt") "secret" = true :=
  createFile_writes_resolved_path_unchecked echoCmdO false false "/r/proj"
    "../evil.txt" "secret" projFS rfl (by decide)

/-- C3: a `run_command` that exits 0 in captured (no-emitter) mode does
not advance the loop: the success path falls through to
`return success, stdout, stderr` with the local `success` never assigned,
so `execute_actions` raises `UnboundLocalError` and the following
`create_file` is never executed. -/
theorem capturedRunCommand_success_raises :
    executeActions echoCmdO false true (some "/r/proj") projFS
      [mkRunCommand "echo hi" none, mkCreateFile "a.txt" "x"] =
      ⟨.error .unboundLocal, projFS, [("echo hi", ["r", "proj"])]⟩ ∧
    (echoCmdO "echo hi" ["r", "proj"]).exitCode = 0 ∧
    fileHas projFS ["r", "proj", "a.txt"] "x" = false :=
  ⟨rfl, rfl, rfl⟩

/-- C6 (amended): every spawned command's working directory is the project
root; the action's `working_dir` field is never consulted (source comment:
"Force command_cwd to be project_root, ignoring any cwd from action_data"). -/
theorem runCommand_cwd_is_project_root (cmdO : String → List String → CmdResult)
    (he co : Bool) (rootOpt : Option String) (st : FSState)
    (acts : List ActionData) (c : String × List String)
    (h : c ∈ (executeActions cmdO he co rootOpt st acts).spawned) :
    c.2 = rootOf rootOpt := by
  unfold executeActions at h
  split at h
  · rcases executeActionsAux_spawned_cwd cmdO he co (rootOf rootOpt) acts st
      [] none none none c h with h' | h'
    · exact absurd h' (List.not_mem_nil c)
    · exact h'
  · exact absurd h (List.not_mem_nil c)

/-- C6 counterexample: a `run_command` carrying `working_dir = "sub"` is
spawned with the project root as its working directory, not the resolved
`working_dir`. -/
theorem runCommand_workingDir_ignored :
    (mkRunCommand "echo hi" (some "sub")).working_dir = some "sub" ∧
    (executeActions echoCmdO false true (some "/r/proj") projFS
        [mkRunCommand "echo hi" (some "sub")]).spawned =
      [("echo hi", ["r", "proj"])] ∧
    resolveJoin ["r", "proj"] "sub" ≠ ["r", "proj"] :=
  ⟨rfl, rfl, by decide⟩

/-- Witness for the amended C6: the spawned command of the concrete
scenario indeed ran with the project root as cwd. -/
theorem runCommand_cwd_witness :
    (("echo hi", ["r", "proj"]) : String × List String).2 =
      rootOf (some "/r/proj") :=
  runCommand_cwd_is_project_root echoCmdO false true (some "/r/proj") projFS
    [mkRunCommand "echo hi" (some "sub")] ("echo hi", ["r", "proj"]) (by decide)

/-- C4: policy soundness of the role filters.  Every action surviving the
manager filter is a `create_file` of exactly `plan.md`; every action
surviving the planner filter is a `create_file` or `edit_file` of exactly
`project_plan.md`; every action surviving the coder filter has a kind in
the coder allow-list.  The filters drop rejected actions and never raise
(they are total functions on the candidate list). -/
theorem roleFilter_policy_sound (acts : List ActionData) (a : ActionData)
    (planExists : Bool) :
    (a ∈ managerFilter acts →
      a.action = some "create_file" ∧ a.path = some "plan.md") ∧
    (a ∈ plannerFilter planExists acts →
      (a.action = some "create_file" ∨ a.action = some "edit_file") ∧
        a.path = some "project_plan.md") ∧
    (a ∈ coderFilter acts →
      a.action = some "create_file" ∨ a.action = some "edit_file" ∨
        a.action = some "run_command" ∨ a.action = some "create_directory") := by
  refine ⟨fun h => ?_, fun h => ?_, fun h => ?_⟩
  · have := (List.mem_filter.mp h).2
    simp only [Bool.and_eq_true, decide_eq_true_eq] at this
    exact ⟨this.1, this.2⟩
  · have := (List.mem_filter.mp h).2
    simp only [Bool.and_eq_true, Bool.or_eq_true, decide_eq_true_eq] at this
    rcases this with ⟨hpath, hkind | hkind⟩
    · exact ⟨.inl hkind.1, hpath⟩
    · exact ⟨.inr hkind.1, hpath⟩
  · have := (List.mem_filter.mp h).2
    simp only [Bool.and_eq_true, Bool.or_eq_true, decide_eq_true_eq] at this
    tauto

/-- Witness for C4: on a concrete candidate list the manager filter keeps
the compliant action, and the theorem certifies its kind and path. -/
theorem roleFilter_policy_witness :
    goodMgrAction ∈ managerFilter [goodMgrAction, badMgrAction] ∧
    (goodMgrAction.action = some "create_file" ∧
      goodMgrAction.path = some "plan.md") :=
  ⟨by decide,
    (roleFilter_policy_sound [goodMgrAction, badMgrAction] goodMgrAction true).1
      (by decide)⟩

/-- C5 counterexample: with a fixer that keeps producing fresh plans whose
first action succeeds, `retry_count` resets on every success, so the run
performs six fixer (replanning) attempts — more than `retry_limit = 5` —
before completing.  The budget bounds only consecutive failures, not total
replanning attempts. -/
theorem jediLoop_budget_exceeded :
    jediLoop alternatingExec nextPlanFix 20 jediStart =
      .exited ⟨planNum 6, 2, 0, 14, 6⟩ ∧
    retryLimit <
      (jediLoop alternatingExec nextPlanFix 20 jediStart).state.fixCount :=
  ⟨rfl, by decide⟩

/-- C5 (amended): (a) whenever the fixer returns a plan equal to the plan
just attempted, the loop halts at once — no action of the returned plan is
executed (only the failing attempt's execution is counted); (b) the
retry counter never exceeds `retry_limit`, so five consecutive failed
attempts without an intervening success end the loop. -/
theorem jediLoop_guard_and_budget :
    (∀ (eO : Nat → Bool) (fO : Nat → List ActionData) (fuel : Nat)
        (s : JediState),
        s.i < s.actions.length → s.retry < retryLimit →
        eO s.execCount = false → fO s.fixCount = s.actions →
        jediLoop eO fO (fuel + 1) s =
          .loopHalt { s with execCount := s.execCount + 1,
                             fixCount := s.fixCount + 1 }) ∧
    (∀ (eO : Nat → Bool) (fO : Nat → List ActionData) (fuel : Nat)
        (s : JediState),
        s.retry ≤ retryLimit →
        (jediLoop eO fO fuel s).state.retry ≤ retryLimit) := by
  constructor
  · intro eO fO fuel s h1 h2 h3 h4
    simp [jediLoop, h1, h2, h3, h4]
  · intro eO fO fuel
    induction fuel with
    | zero => intro s hs; simpa [jediLoop, JediResult.state] using hs
    | succ fuel ih =>
      intro s hs
      simp only [jediLoop]
      by_cases hc : s.i < s.actions.length ∧ s.retry < retryLimit
      · rw [if_pos hc]
        by_cases he : eO s.execCount = true
        · rw [if_pos he]
          exact ih _ (Nat.zero_le _)
        · rw [if_neg he]
          by_cases hfix : fO s.fixCount = s.actions
          · rw [if_pos hfix]
            simpa [JediResult.state] using hs
          · rw [if_neg hfix]
            exact ih _ (Nat.succ_le_of_lt hc.2)
      · rw [if_neg hc]
        simpa [JediResult.state] using hs

/-- Witness for the amended C5: the identical-plan guard fires on a
concrete state, and the retry bound holds on the concrete scenario run. -/
theorem jediLoop_guard_witness :
    jediLoop (fun _ => false) (fun _ => planNum 0) 1 jediStart =
      .loopHalt ⟨planNum 0, 0, 0, 1, 1⟩ ∧
    (jediLoop alternatingExec nextPlanFix 20 jediStart).state.retry ≤ retryLimit :=
  ⟨jediLoop_guard_and_budget.1 (fun _ => false) (fun _ => planNum 0) 0 jediStart
      (by decide) (by decide) rfl rfl,
    jediLoop_guard_and_budget.2 alternatingExec nextPlanFix 20 jediStart
      (by decide)⟩

/-- The only error `pyContains` can produce is the membership-test
`TypeError` on a non-container. -/
theorem pyContains_error_typeError {k : String} {v : JsonVal} {e : PyErr}
    (h : pyContains k v = .error e) : e = .typeError := by
  cases v <;> simp_all [pyContains]

/-- One cascade stage either fails with the membership `TypeError` or
defers to the rest of the cascade for its error. -/
theorem stageOr_error {repairO : String → String} {res : Option (List Char)}
    {next : Except PyErr JsonVal} {e : PyErr}
    (h : stageOr repairO res next = .error e) :
    e = .typeError ∨ next = .error e := by
  cases res with
  | none => exact .inr h
  | some content =>
    simp only [stageOr] at h
    rcases hpc : pyContains "error"
        (repairAndParseJson repairO (String.mk (pyStrip content))) with e' | b
    · rw [hpc] at h
      cases h
      exact .inl (pyContains_error_typeError hpc)
    · rw [hpc] at h
      cases b
      · cases h
      · exact .inr h

/-- C2 (amended): the extractor's only escape hatch is the `TypeError`
raised by the `'error' not in result` membership test when an extracted
candidate parses to a non-container; under any repair oracle, any
exception `extract_and_repair_json` raises is that `TypeError`.  (It also
need not return a dict: a directly-parsing scalar or array input is
returned as-is.) -/
theorem extract_error_only_typeError (repairO : String → String) (s : String)
    (e : PyErr) (h : extractAndRepairJson repairO s = .error e) :
    e = .typeError := by
  unfold extractAndRepairJson at h
  rcases hjl : jsonLoads (stripS s) with _ | v
  · rw [hjl] at h
    rcases stageOr_error h with he | h
    · exact he
    rcases stageOr_error h with he | h
    · exact he
    rcases stageOr_error h with he | h
    · exact he
    rcases stageOr_error h with he | h
    · exact he
    rcases stageOr_error h with he | h
    · exact he
    cases h
  · rw [hjl] at h
    cases h

/-- C2 counterexample: the claim fails in both halves.  A code block whose
content parses to the scalar `42` makes `extract_and_repair_json` raise
(`'error' not in 42` is a `TypeError`, and only `re.error` is caught
there); and the bare input `"42"` is returned as an `int`, not a dict. -/
theorem extract_raises_and_returns_nondict :
    extractAndRepairJson repairId "x ```json\n42\n``` y" = .error .typeError ∧
    extractAndRepairJson repairId "42" = .ok (.num 42) :=
  ⟨rfl, rfl⟩

/-- Witness for the amended C2: the raising input indeed raises, and the
theorem pins its exception to the membership `TypeError`. -/
theorem extract_error_witness :
    extractAndRepairJson repairId "x ```json\n42\n``` y" =
      .error PyErr.typeError ∧ PyErr.typeError = PyErr.typeError :=
  ⟨rfl, extract_error_only_typeError repairId "x ```json\n42\n``` y"
    PyErr.typeError rfl⟩

/-- C8 (amended): when no JSON strategy fires and the step pattern
matches, the fallback does not synthesize actions: it returns
`{"refined_plan": {"steps": [...]}}` with one stripped step string per
pattern match (and no `"actions"` key at all). -/
theorem extract_step_fallback_steps (repairO : String → String) (s : String)
    (h0 : jsonLoads (stripS s) = none)
    (h1 : fencePattern1 s.data = none) (h2 : fencePattern2 s.data = none)
    (h3 : fencePattern3 s.data = none)
    (h4 : findSpan '{' '}' s.data = none) (h5 : findSpan '[' ']' s.data = none)
    (h6 : stepFindall s ≠ []) :
    extractAndRepairJson repairO s =
      .ok (.obj [("refined_plan", .obj [("steps",
        .arr ((stepFindall s).map
          (fun step => JsonVal.str (String.mk (pyStrip step)))))])]) ∧
    ((stepFindall s).map (fun step => JsonVal.str (String.mk (pyStrip step)))).length
      = (stepFindall s).length := by
  refine ⟨?_, List.length_map _ _⟩
  simp only [extractAndRepairJson, h0, h1, h2, h3, h4, h5, stageOr]
  rcases hsf : stepFindall s with _ | ⟨st, sts⟩
  · exact absurd hsf h6
  · simp [naturalLanguageToJson, hsf]

/-- C8 counterexample: on the claim's own example the extraction result
has no `"actions"` key — zero synthesized actions, not the claimed two;
the two steps appear as strings under `refined_plan.steps`. -/
theorem extract_step_fallback_no_actions :
    extractAndRepairJson repairId "Step 1: do X. Step 2: do Y." =
      .ok (.obj [("refined_plan",
        .obj [("steps", .arr [.str "do X.", .str "do Y."])])]) ∧
    jsonActions (.obj [("refined_plan",
        .obj [("steps", .arr [.str "do X.", .str "do Y."])])]) = [] :=
  ⟨rfl, rfl⟩

/-- Witness for the amended C8 at the claim's example input. -/
theorem extract_step_fallback_witness :
    extractAndRepairJson repairId "Step 1: do X. Step 2: do Y." =
      .ok (.obj [("refined_plan", .obj [("steps",
        .arr ((stepFindall "Step 1: do X. Step 2: do Y.").map
          (fun step => JsonVal.str (String.mk (pyStrip step)))))])]) ∧
    ((stepFindall "Step 1: do X. Step 2: do Y.").map
        (fun step => JsonVal.str (String.mk (pyStrip step)))).length
      = (stepFindall "Step 1: do X. Step 2: do Y.").length :=
  extract_step_fallback_steps repairId "Step 1: do X. Step 2: do Y."
    rfl rfl rfl rfl rfl rfl (by decide)

/-- C9 (amended): when every parsing strategy and both pattern fallbacks
fail but the input has nonempty paragraphs, the extractor returns a single
`create_file` of `plan.md` whose content is the header
`"# Generated Plan\n\n"` followed by the stripped paragraphs rejoined with
blank lines — not the raw input verbatim. -/
theorem extract_last_resort_header (repairO : String → String) (s : String)
    (h0 : jsonLoads (stripS s) = none)
    (h1 : fencePattern1 s.data = none) (h2 : fencePattern2 s.data = none)
    (h3 : fencePattern3 s.data = none)
    (h4 : findSpan '{' '}' s.data = none) (h5 : findSpan '[' ']' s.data = none)
    (h6 : stepFindall s = []) (h7 : fileFindall s = [])
    (h8 : paragraphs s ≠ []) :
    extractAndRepairJson repairO s =
      .ok (.obj [("actions", .arr [
        .obj [("action", .str "create_file"),
              ("path", .str "plan.md"),
              ("content", .str (genPlanContent s))]])]) := by
  simp only [extractAndRepairJson, h0, h1, h2, h3, h4, h5, stageOr]
  rcases hps : paragraphs s with _ | ⟨p, ps⟩
  · exact absurd hps h8
  · simp [naturalLanguageToJson, h6, h7, hps]

/-- C9 counterexample: for the bare input `"hello"` the fallback file's
content is `"# Generated Plan\n\nhello"`, not the verbatim input; and for
whitespace-only input the result has an empty `"actions"` list — no
wrapping `create_file` at all. -/
theorem extract_last_resort_not_verbatim :
    extractAndRepairJson repairId "hello" =
      .ok (.obj [("actions", .arr [
        .obj [("action", .str "create_file"),
              ("path", .str "plan.md"),
              ("content", .str "# Generated Plan\n\nhello")]])]) ∧
    "# Generated Plan\n\nhello" ≠ "hello" ∧
    extractAndRepairJson repairId " " = .ok (.obj [("actions", .arr [])]) :=
  ⟨rfl, by decide, rfl⟩

/-- Witness for the amended C9 at the input `"hello"`. -/
theorem extract_last_resort_witness :
    extractAndRepairJson repairId "hello" =
      .ok (.obj [("actions", .arr [
        .obj [("action", .str "create_file"),
              ("path", .str "plan.md"),
              ("content", .str (genPlanContent "hello"))]])]) :=
  extract_last_resort_header repairId "hello"
    rfl rfl rfl rfl rfl rfl rfl rfl (by decide)



/-! ## Round-trip: a plan serialized in a fenced block extracts unchanged (C7)

The lemma chain: the printer's output parses back to the printed value
(strings, object members, array elements, the whole plan), the printed plan
contains no newline so the fence pattern captures exactly it, stripping is
the identity on it, and the whole-input direct parse fails on the fence's
backtick — so the extractor takes the first code-block stage and returns
the plan. -/

theorem skipWs_cons_nonws {c : Char} (cs : List Char) (h : isJsonWs c = false) :
    skipWs (c :: cs) = c :: cs := by simp [skipWs, h]

theorem parseStringBody_print (cs : List Char) (h : cs.all strOkChar = true) :
    ∀ rest, parseStringBody ((cs.map escapeChar).flatten ++ '"' :: rest) = some (cs, rest) := by
  induction cs with
  | nil => intro rest; simp [parseStringBody.eq_def]
  | cons c cs ih =>
    intro rest
    simp only [List.all_cons, Bool.and_eq_true] at h
    have ihr := ih h.2 rest
    by_cases h1 : c = '"'
    · subst h1
      simp only [List.map_cons, List.flatten_cons,
        show escapeChar '"' = ['\\', '"'] from rfl,
        List.cons_append, List.append_assoc]
      rw [parseStringBody.eq_def]
      simp [ihr]
    · by_cases h2 : c = '\\'
      · subst h2
        simp only [List.map_cons, List.flatten_cons,
          show escapeChar '\\' = ['\\', '\\'] from rfl,
          List.cons_append, List.append_assoc]
        rw [parseStringBody.eq_def]
        simp [ihr]
      · by_cases h3 : c = '\n'
        · subst h3
          simp only [List.map_cons, List.flatten_cons,
            show escapeChar '\n' = ['\\', 'n'] from rfl,
            List.cons_append, List.append_assoc]
          rw [parseStringBody.eq_def]
          simp [ihr]
        · by_cases h4 : c = '\t'
          · subst h4
            simp only [List.map_cons, List.flatten_cons,
              show escapeChar '\t' = ['\\', 't'] from rfl,
              List.cons_append, List.append_assoc]
            rw [parseStringBody.eq_def]
            simp [ihr]
          · by_cases h5 : c = '\r'
            · subst h5
              simp only [List.map_cons, List.flatten_cons,
                show escapeChar '\r' = ['\\', 'r'] from rfl,
                List.cons_append, List.append_assoc]
              rw [parseStringBody.eq_def]
              simp [ihr]
            · have hge : 0x20 ≤ c.toNat := by
                have := h.1
                simp only [strOkChar, Bool.or_eq_true, Bool.and_eq_true,
                  decide_eq_true_eq] at this
                rcases this with ((⟨ha, -⟩ | hc) | hc) | hc
                · exact ha
                · exact absurd hc h3
                · exact absurd hc h4
                · exact absurd hc h5
              have hlt : ¬ (c.toNat < 0x20) := Nat.not_lt.mpr hge
              simp only [escapeChar, if_neg h1, if_neg h2, if_neg h3, if_neg h4,
                if_neg h5, List.map_cons, List.flatten_cons, List.singleton_append,
                List.cons_append]
              rw [parseStringBody.eq_def]
              simp [h1, h2, hlt, ihr]

theorem parseVal_printString (s : String) (h : strOk s = true) (rest : List Char)
    (fuel : Nat) :
    parseVal (fuel + 1) (printString s ++ rest) = some (.str s, rest) := by
  have hbody := parseStringBody_print s.data h rest
  simp only [printString, List.cons_append, List.append_assoc, List.singleton_append]
  simp [parseVal, skipWs, isJsonWs, hbody]

theorem parseMembers_print :
    ∀ (kvs : List (String × String)), fieldsOk kvs = true → kvs ≠ [] →
      ∀ (rest : List Char) (fuel : Nat), kvs.length + 2 ≤ fuel →
      parseMembers fuel (printFields kvs ++ '}' :: rest) = some (fieldsJson kvs, rest)
  | [], _, hne, _, _, _ => absurd rfl hne
  | [(k, v)], hok, _, rest, fuel, hf => by
    simp only [fieldsOk, List.all_cons, List.all_nil, Bool.and_true,
      Bool.and_eq_true] at hok
    obtain ⟨f, rfl⟩ : ∃ f, fuel = f + 1 := ⟨fuel - 1, by omega⟩
    obtain ⟨f', rfl⟩ : ∃ f', f = f' + 1 := ⟨f - 1, by omega⟩
    have hk := parseStringBody_print k.data hok.1
    have hv := parseVal_printString v hok.2 ('}' :: rest) f'
    simp only [printString, List.cons_append, List.append_assoc,
      List.nil_append] at hv
    simp only [printFields, printString, List.cons_append, List.append_assoc]
    rw [parseMembers.eq_def]
    simp only [skipWs_cons_nonws _ (by decide : isJsonWs '"' = false)]
    simp [hk, hv, skipWs_cons_nonws _ (by decide : isJsonWs ':' = false),
      skipWs_cons_nonws _ (by decide : isJsonWs '}' = false), fieldsJson,
      printString]
  | (k, v) :: kv2 :: kvs', hok, _, rest, fuel, hf => by
    have hok' : fieldsOk (kv2 :: kvs') = true := by
      simp only [fieldsOk, List.all_cons, Bool.and_eq_true] at hok ⊢
      exact ⟨hok.2.1, hok.2.2⟩
    have hkv : strOk k = true ∧ strOk v = true := by
      simp only [fieldsOk, List.all_cons, Bool.and_eq_true] at hok
      exact hok.1
    obtain ⟨f, rfl⟩ : ∃ f, fuel = f + 1 := ⟨fuel - 1, by omega⟩
    obtain ⟨f', rfl⟩ : ∃ f', f = f' + 1 := ⟨f - 1, by omega⟩
    have hk := parseStringBody_print k.data hkv.1
    have hv := parseVal_printString v hkv.2
      (',' :: (printFields (kv2 :: kvs') ++ '}' :: rest)) f'
    simp only [printString, List.cons_append, List.append_assoc,
      List.nil_append] at hv
    have hrec := parseMembers_print (kv2 :: kvs') hok' (by simp) rest (f' + 1)
      (by simpa using Nat.le_of_succ_le_succ hf)
    simp only [printFields, printString, List.cons_append, List.append_assoc]
    rw [parseMembers.eq_def]
    simp only [skipWs_cons_nonws _ (by decide : isJsonWs '"' = false)]
    simp [hk, hv, hrec, skipWs_cons_nonws _ (by decide : isJsonWs ':' = false),
      skipWs_cons_nonws _ (by decide : isJsonWs ',' = false), fieldsJson,
      printString]


theorem parseVal_printActionObj (kvs : List (String × String))
    (hok : fieldsOk kvs = true) (rest : List Char) (fuel : Nat)
    (hf : kvs.length + 3 ≤ fuel) :
    parseVal fuel (printActionObj kvs ++ rest) = some (actionJson kvs, rest) := by
  obtain ⟨f, rfl⟩ : ∃ f, fuel = f + 1 := ⟨fuel - 1, by omega⟩
  cases kvs with
  | nil =>
    simp only [printActionObj, printFields, List.nil_append, List.cons_append]
    rw [parseVal.eq_def]
    simp [skipWs, isJsonWs, actionJson, fieldsJson]
  | cons kv kvs' =>
    have hmem := parseMembers_print (kv :: kvs') hok (by simp) rest f (by
      simp only [List.length_cons] at hf ⊢
      omega)
    cases kvs' with
    | nil =>
      obtain ⟨k, v⟩ := kv
      simp only [printActionObj, printFields, printString, List.cons_append,
        List.append_assoc, List.nil_append] at hmem ⊢
      rw [parseVal.eq_def]
      simp [skipWs_cons_nonws _ (by decide : isJsonWs '{' = false),
        skipWs_cons_nonws _ (by decide : isJsonWs '"' = false), hmem, actionJson]
    | cons kv2 kvs'' =>
      obtain ⟨k, v⟩ := kv
      simp only [printActionObj, printFields, printString, List.cons_append,
        List.append_assoc, List.nil_append] at hmem ⊢
      rw [parseVal.eq_def]
      simp [skipWs_cons_nonws _ (by decide : isJsonWs '{' = false),
        skipWs_cons_nonws _ (by decide : isJsonWs '"' = false), hmem, actionJson]


theorem parseElems_print :
    ∀ (al : List (List (String × String))), planOk al = true → al ≠ [] →
      ∀ (rest : List Char) (fuel : Nat), needElems al ≤ fuel →
      parseElems fuel (printActionsArr al ++ ']' :: rest) =
        some (al.map actionJson, rest)
  | [], _, hne, _, _, _ => absurd rfl hne
  | [a], hok, _, rest, fuel, hf => by
    obtain ⟨f, rfl⟩ : ∃ f, fuel = f + 1 := ⟨fuel - 1, by
      simp [needElems] at hf; omega⟩
    have ha : fieldsOk a = true := by
      simpa [planOk] using hok
    have hobj := parseVal_printActionObj a ha (']' :: rest) f (by
      simp [needElems] at hf; omega)
    simp only [printActionsArr, List.append_assoc]
    rw [parseElems.eq_def]
    simp [hobj, skipWs_cons_nonws _ (by decide : isJsonWs ']' = false)]
  | a :: a2 :: al', hok, _, rest, fuel, hf => by
    obtain ⟨f, rfl⟩ : ∃ f, fuel = f + 1 := ⟨fuel - 1, by
      simp [needElems] at hf; omega⟩
    have ha : fieldsOk a = true := by
      simp only [planOk, List.all_cons, Bool.and_eq_true] at hok
      exact hok.1
    have hok' : planOk (a2 :: al') = true := by
      simp only [planOk, List.all_cons, Bool.and_eq_true] at hok ⊢
      exact ⟨hok.2.1, hok.2.2⟩
    have hobj := parseVal_printActionObj a ha
      (',' :: (printActionsArr (a2 :: al') ++ ']' :: rest)) f (by
      simp [needElems] at hf; omega)
    have hrec := parseElems_print (a2 :: al') hok' (by simp) rest f (by
      simp [needElems] at hf ⊢; omega)
    simp only [printActionsArr, List.cons_append, List.append_assoc]
    rw [parseElems.eq_def]
    simp [hobj, hrec, skipWs_cons_nonws _ (by decide : isJsonWs ',' = false)]


theorem parseStringBody_actions (r : List Char) :
    parseStringBody ('a' :: 'c' :: 't' :: 'i' :: 'o' :: 'n' :: 's' :: '"' :: r) =
      some ("actions".data, r) := by
  have h := parseStringBody_print "actions".data (by decide) r
  simpa using h

theorem needElems_pos (al : List (List (String × String))) : 1 ≤ needElems al := by
  cases al with
  | nil => simp [needElems]
  | cons a l => simp only [needElems]; omega

theorem parseVal_printPlan (al : List (List (String × String)))
    (hok : planOk al = true) (rest : List Char) (fuel : Nat)
    (hf : needElems al + 4 ≤ fuel) :
    parseVal fuel (printPlan al ++ rest) = some (planJson al, rest) := by
  have hpos := needElems_pos al
  obtain ⟨f, rfl⟩ : ∃ f, fuel = f + 1 := ⟨fuel - 1, by omega⟩
  obtain ⟨g, rfl⟩ : ∃ g, f = g + 1 := ⟨f - 1, by omega⟩
  obtain ⟨e, rfl⟩ : ∃ e, g = e + 1 := ⟨g - 1, by omega⟩
  have hact : printString "actions" = '"' :: ("actions".data ++ ['"']) := by decide
  have hinner : parseVal (e + 1)
      ('[' :: (printActionsArr al ++ ']' :: '}' :: rest)) =
      some (.arr (al.map actionJson), '}' :: rest) := by
    obtain ⟨d, rfl⟩ : ∃ d, e = d + 1 := ⟨e - 1, by omega⟩
    rw [parseVal.eq_def]
    cases al with
    | nil => simp [printActionsArr, skipWs, isJsonWs]
    | cons a al' =>
      have helems := parseElems_print (a :: al') hok (by simp)
        ('}' :: rest) (d + 1) (by omega)
      cases al' with
      | nil =>
        simp only [printActionsArr, printActionObj, List.cons_append,
          List.append_assoc, List.nil_append] at helems ⊢
        simp [skipWs_cons_nonws _ (by decide : isJsonWs '[' = false),
          skipWs_cons_nonws _ (by decide : isJsonWs '{' = false), helems]
      | cons b bl =>
        simp only [printActionsArr, printActionObj, List.cons_append,
          List.append_assoc, List.nil_append] at helems ⊢
        simp [skipWs_cons_nonws _ (by decide : isJsonWs '[' = false),
          skipWs_cons_nonws _ (by decide : isJsonWs '{' = false), helems]
  have hmem : parseMembers (e + 1 + 1)
      ('"' :: 'a' :: 'c' :: 't' :: 'i' :: 'o' :: 'n' :: 's' :: '"' :: ':' :: '[' ::
        (printActionsArr al ++ ']' :: '}' :: rest)) =
      some ([("actions", JsonVal.arr (al.map actionJson))], rest) := by
    rw [parseMembers.eq_def]
    simp [parseStringBody_actions, hinner,
      skipWs_cons_nonws _ (by decide : isJsonWs '"' = false),
      skipWs_cons_nonws _ (by decide : isJsonWs ':' = false),
      skipWs_cons_nonws _ (by decide : isJsonWs '}' = false)]
  simp only [printPlan, hact, List.cons_append, List.append_assoc,
    List.nil_append]
  rw [parseVal.eq_def]
  simp [hmem, planJson,
    skipWs_cons_nonws _ (by decide : isJsonWs '{' = false),
    skipWs_cons_nonws _ (by decide : isJsonWs '"' = false)]


theorem len_printFields : ∀ kvs : List (String × String),
    kvs.length ≤ (printFields kvs).length
  | [] => by simp [printFields]
  | [(k, v)] => by
    simp [printFields, printString]
  | (k, v) :: kv2 :: rest => by
    have ih := len_printFields (kv2 :: rest)
    simp only [printFields, printString, List.length_append, List.length_cons,
      List.length_cons] at ih ⊢
    omega

theorem needElems_le : ∀ al : List (List (String × String)),
    needElems al ≤ 2 * (printActionsArr al).length + 1
  | [] => by simp [needElems, printActionsArr]
  | [a] => by
    have h := len_printFields a
    simp only [needElems, printActionsArr, printActionObj, List.length_append,
      List.length_cons, List.length_nil]
    omega
  | a :: a2 :: al' => by
    have h1 := len_printFields a
    have h2 := needElems_le (a2 :: al')
    simp only [needElems, printActionsArr, printActionObj, List.length_append,
      List.length_cons, List.length_nil] at h2 ⊢
    omega

theorem jsonLoads_dumpsPlan (al : List (List (String × String)))
    (hok : planOk al = true) :
    jsonLoads (dumpsPlan al) = some (planJson al) := by
  have h9 : (printString "actions").length = 9 := by decide
  have h3 : (printPlan al).length = 14 + (printActionsArr al).length := by
    simp [printPlan, h9]
    omega
  have hfuel : needElems al + 4 ≤ 2 * (dumpsPlan al).length + 2 := by
    have h1 := needElems_le al
    have h2 : (dumpsPlan al).length = (printPlan al).length := rfl
    omega
  have h := parseVal_printPlan al hok [] (2 * (dumpsPlan al).length + 2) hfuel
  rw [List.append_nil] at h
  unfold jsonLoads
  rw [show (dumpsPlan al).data = printPlan al from rfl, h]
  simp [skipWs]


theorem parseVal_backtick (fuel : Nat) (rest : List Char) :
    parseVal fuel ('`' :: rest) = none := by
  cases fuel with
  | zero => rfl
  | succ f =>
    rw [parseVal.eq_def]
    simp [skipWs_cons_nonws _ (by decide : isJsonWs '`' = false),
      parseNumber, takeDigits]

theorem skipWsAll_cons_nonws {c : Char} (cs : List Char)
    (h : isWsChar c = false) : skipWsAll (c :: cs) = c :: cs := by
  simp [skipWsAll, h]

theorem pyStrip_sandwich (a b : Char) (mid : List Char)
    (ha : isWsChar a = false) (hb : isWsChar b = false) :
    pyStrip (a :: (mid ++ [b])) = a :: (mid ++ [b]) := by
  unfold pyStrip
  rw [skipWsAll_cons_nonws _ ha]
  have hrev : (a :: (mid ++ [b])).reverse = b :: (mid.reverse ++ [a]) := by
    simp
  rw [hrev, skipWsAll_cons_nonws _ hb]
  have : (b :: (mid.reverse ++ [a])).reverse = a :: (mid ++ [b]) := by
    simp
  rw [this]

theorem isPrefixOf_append_self : ∀ (l t : List Char), l.isPrefixOf (l ++ t) = true
  | [], _ => by simp [List.isPrefixOf]
  | a :: as, t => by
    simp [List.isPrefixOf, isPrefixOf_append_self as t]

theorem splitOnSub_boundary (n0 : Char) (nrest content tail : List Char)
    (h : n0 ∉ content) :
    splitOnSub (n0 :: nrest) (content ++ ((n0 :: nrest) ++ tail)) =
      some (content, tail) := by
  induction content with
  | nil =>
    have hp : (n0 :: nrest).isPrefixOf (n0 :: (nrest ++ tail)) = true := by
      rw [← List.cons_append]
      exact isPrefixOf_append_self (n0 :: nrest) tail
    simp only [List.nil_append, List.cons_append, splitOnSub, List.append_eq]
    rw [if_pos hp]
    simp [List.drop_succ_cons, List.drop_left]
  | cons c content' ih =>
    have hc : (n0 == c) = false := by
      simp only [List.mem_cons, not_or] at h
      simp [beq_eq_false_iff_ne, Ne, h.1]
    have hnp : ((n0 :: nrest).isPrefixOf
        (c :: (content' ++ ((n0 :: nrest) ++ tail)))) = false := by
      simp [List.isPrefixOf, hc]
    have h' : n0 ∉ content' := by
      simp only [List.mem_cons, not_or] at h
      exact h.2
    simp only [List.cons_append, splitOnSub, List.append_eq]
    rw [if_neg (fun hC => by simp [List.isPrefixOf, hc] at hC)]
    simp only [List.cons_append] at ih
    rw [ih h']


theorem escapeChar_no_newline (c : Char) : '\n' ∉ escapeChar c := by
  unfold escapeChar
  split
  · simp
  · split
    · simp
    · split
      · simp
      · split
        · simp
        · split
          · simp
          · rename_i h1 h2 h3 h4 h5
            simp only [List.mem_singleton]
            exact fun hc => h3 hc.symm

theorem printString_no_newline (s : String) : '\n' ∉ printString s := by
  intro h
  rcases List.mem_cons.mp h with h | h
  · exact absurd h (by decide)
  rcases List.mem_append.mp h with h | h
  · rcases List.mem_flatten.mp h with ⟨l, hl, hmem⟩
    rcases List.mem_map.mp hl with ⟨c, _, rfl⟩
    exact escapeChar_no_newline c hmem
  · exact absurd h (by decide)

theorem printFields_no_newline : ∀ kvs : List (String × String),
    '\n' ∉ printFields kvs
  | [] => by simp [printFields]
  | [(k, v)] => by
    simp [printFields, printString_no_newline k, printString_no_newline v]
  | (k, v) :: kv2 :: rest => by
    simp [printFields, printString_no_newline k, printString_no_newline v,
      printFields_no_newline (kv2 :: rest)]

theorem printActionObj_no_newline (kvs : List (String × String)) :
    '\n' ∉ printActionObj kvs := by
  simp [printActionObj, printFields_no_newline kvs]

theorem printActionsArr_no_newline : ∀ al : List (List (String × String)),
    '\n' ∉ printActionsArr al
  | [] => by simp [printActionsArr]
  | [a] => by
    simpa [printActionsArr] using printActionObj_no_newline a
  | a :: a2 :: al' => by
    simp [printActionsArr, printActionObj_no_newline a,
      printActionsArr_no_newline (a2 :: al')]

theorem printPlan_no_newline (al : List (List (String × String))) :
    '\n' ∉ printPlan al := by
  simp [printPlan, printString_no_newline "actions",
    printActionsArr_no_newline al]


theorem strData_append : ∀ (x y : String), (x ++ y).data = x.data ++ y.data
  | ⟨_⟩, ⟨_⟩ => rfl

theorem fencedInput_data (al : List (List (String × String))) :
    (fencedInput al).data =
      '`' :: '`' :: '`' :: 'j' :: 's' :: 'o' :: 'n' :: '\n' ::
        (printPlan al ++ ['\n', '`', '`', '`']) := by
  show ("```json\n" ++ dumpsPlan al ++ "\n```").data = _
  rw [strData_append, strData_append]
  show ['`', '`', '`', 'j', 's', 'o', 'n', '\n'] ++ printPlan al ++
    ['\n', '`', '`', '`'] = _
  simp

theorem splitOnSub_ticks (X : List Char) :
    splitOnSub "```".data ('`' :: '`' :: '`' :: X) = some ([], X) := by
  have := splitOnSub_boundary '`' ['`', '`'] [] X (by simp)
  simpa using this

theorem fencePattern1_fenced (al : List (List (String × String))) :
    fencePattern1 ((fencedInput al).data) = some (printPlan al) := by
  rw [fencedInput_data]
  unfold fencePattern1
  rw [splitOnSub_ticks]
  dsimp only
  have hdrop : dropTag ('j' :: 's' :: 'o' :: 'n' :: '\n' ::
      (printPlan al ++ ['\n', '`', '`', '`'])) =
      '\n' :: (printPlan al ++ ['\n', '`', '`', '`']) := by
    simp [dropTag, fenceTags, List.find?, List.isPrefixOf]
  rw [hdrop]
  have hst : skipSpaceTab ('\n' :: (printPlan al ++ ['\n', '`', '`', '`'])) =
      '\n' :: (printPlan al ++ ['\n', '`', '`', '`']) := by
    simp [skipSpaceTab]
  rw [hst]
  have hsplit := splitOnSub_boundary '\n' ['`', '`', '`'] (printPlan al) []
    (printPlan_no_newline al)
  rw [List.append_nil] at hsplit
  simp [hsplit]

theorem pyStrip_printPlan (al : List (List (String × String))) :
    pyStrip (printPlan al) = printPlan al := by
  have hshape : printPlan al = '{' ::
      ((printString "actions" ++ ':' :: '[' :: printActionsArr al ++ [']']) ++
        ['}']) := by
    simp [printPlan]
  rw [hshape]
  exact pyStrip_sandwich '{' '}' _ (by decide) (by decide)

theorem pyStrip_fencedInput (al : List (List (String × String))) :
    pyStrip ((fencedInput al).data) = (fencedInput al).data := by
  rw [fencedInput_data]
  have hshape : '`' :: '`' :: '`' :: 'j' :: 's' :: 'o' :: 'n' :: '\n' ::
      (printPlan al ++ ['\n', '`', '`', '`']) =
      '`' :: (('`' :: '`' :: 'j' :: 's' :: 'o' :: 'n' :: '\n' ::
        (printPlan al ++ ['\n', '`', '`'])) ++ ['`']) := by
    simp
  rw [hshape]
  exact pyStrip_sandwich '`' '`' _ (by decide) (by decide)


/-- C7: a well-formed plan (an object with an `actions` list of actions
with printable string fields) serialized compactly inside a tagged fenced
block extracts to exactly the serialized plan — identical action count,
order, and field values — under any repair oracle. -/
theorem fencedPlan_roundtrip (repairO : String → String)
    (al : List (List (String × String))) (hok : planOk al = true) :
    extractAndRepairJson repairO (fencedInput al) = .ok (planJson al) ∧
    (jsonActions (planJson al)).length = al.length := by
  constructor
  · have hstrip : stripS (fencedInput al) = fencedInput al := by
      unfold stripS
      rw [pyStrip_fencedInput]
    have hnone : jsonLoads (fencedInput al) = none := by
      unfold jsonLoads
      rw [fencedInput_data al, parseVal_backtick]
    have hload : jsonLoads (String.mk (printPlan al)) = some (planJson al) :=
      jsonLoads_dumpsPlan al hok
    have hrep : repairAndParseJson repairO ⟨printPlan al⟩ = planJson al := by
      unfold repairAndParseJson
      rw [hload]
    have hpc : pyContains "error" (planJson al) = .ok false := by
      simp [pyContains, planJson]
    unfold extractAndRepairJson
    rw [hstrip, hnone]
    dsimp only
    rw [fencePattern1_fenced]
    simp only [stageOr]
    rw [pyStrip_printPlan, hrep, hpc]
  · simp [jsonActions, planJson, lookupKey]


/-- Witness for C7 at the claim's own example: the fenced input is
exactly the example string, and extraction returns the one-action plan. -/
theorem fencedPlan_roundtrip_witness :
    fencedInput [[("action", "create_file"), ("path", "a.txt"), ("content", "hi")]] =
      "```json\n\x7b\"actions\":[\x7b\"action\":\"create_file\",\"path\":\"a.txt\",\"content\":\"hi\"\x7d]\x7d\n```" ∧
    planOk [[("action", "create_file"), ("path", "a.txt"), ("content", "hi")]] = true ∧
    extractAndRepairJson repairId
        (fencedInput [[("action", "create_file"), ("path", "a.txt"), ("content", "hi")]]) =
      .ok (planJson [[("action", "create_file"), ("path", "a.txt"), ("content", "hi")]]) ∧
    (jsonActions (planJson
      [[("action", "create_file"), ("path", "a.txt"), ("content", "hi")]])).length = 1 :=
  ⟨by decide, by decide,
    (fencedPlan_roundtrip repairId
      [[("action", "create_file"), ("path", "a.txt"), ("content", "hi")]] (by decide)).1,
    (fencedPlan_roundtrip repairId
      [[("action", "create_file"), ("path", "a.txt"), ("content", "hi")]] (by decide)).2⟩

end HomeLLMCoder
